import Mathlib

/-!
Verification development for the git-backup selection-and-copy engine
(src/extension.js, TypeScript implementation).

The code is shallowly embedded: JavaScript strings are Lean `String`s
manipulated through their character lists, the Node `path` module is
modelled for POSIX-style paths (no normalization of repeated separators,
`..` segments or trailing slashes, which the engine never produces), and
the file system is modelled as explicit data (a list of existing paths
for the copy engine, a tree of named entries for the scanner).
-/

/-- wsChar is the whitespace test used by the JavaScript trim model. -/
def wsChar (c : Char) : Bool := c.isWhitespace

/-- jsTrim models JavaScript String.prototype.trim: drop whitespace from
both ends of the character list. -/
def jsTrim (s : String) : String :=
  ⟨((s.data.dropWhile wsChar).reverse.dropWhile wsChar).reverse⟩

/-- jsStartsWith models JavaScript String.prototype.startsWith. -/
def jsStartsWith (s pre : String) : Bool := pre.data.isPrefixOf s.data

/-- jsEndsWith models JavaScript String.prototype.endsWith. -/
def jsEndsWith (s suf : String) : Bool := suf.data.isSuffixOf s.data

/-- hasChar models JavaScript String.prototype.includes for a single
character. -/
def hasChar (s : String) (c : Char) : Bool := s.data.any (fun d => d == c)

/-- strDropLast models the slice(0, -1) used to strip a trailing slash. -/
def strDropLast (s : String) : String := ⟨s.data.dropLast⟩

/-- splitNlChars models JavaScript String.prototype.split with separator
a newline, on character lists; the empty input yields one empty segment. -/
def splitNlChars : List Char → List (List Char)
  | [] => [[]]
  | '\n' :: rest => [] :: splitNlChars rest
  | c :: rest =>
    match splitNlChars rest with
    | [] => [[c]]
    | seg :: segs => (c :: seg) :: segs

/-- jsSplitLines models content.split of a newline separator. -/
def jsSplitLines (s : String) : List String :=
  (splitNlChars s.data).map (fun l => ⟨l⟩)

/-- pathBasename models Node path.basename for POSIX paths without a
trailing separator: the characters after the last slash. -/
def pathBasename (p : String) : String :=
  ⟨(p.data.reverse.takeWhile (fun c => !(c == '/'))).reverse⟩

/-- pathDirname models Node path.dirname for POSIX paths without a
trailing separator: the characters before the last slash, a dot when
there is no slash, and the root slash when the last slash is leading. -/
def pathDirname (p : String) : String :=
  match p.data.reverse.dropWhile (fun c => !(c == '/')) with
  | [] => "."
  | _ :: rest => if rest.isEmpty then "/" else ⟨rest.reverse⟩

/-- pathExtname models Node path.extname: the suffix of the base name
from its last dot, provided that dot is not the base name's first
character; otherwise the empty string. -/
def pathExtname (p : String) : String :=
  let base := (pathBasename p).data
  let afterRev := base.reverse.takeWhile (fun c => !(c == '.'))
  if afterRev.length + 2 ≤ base.length then ⟨'.' :: afterRev.reverse⟩ else ""

/-- pathBasenameStrip models the two-argument Node path.basename: the
base name with the given extension removed when it is a proper suffix. -/
def pathBasenameStrip (p ext : String) : String :=
  let b := (pathBasename p).data
  if !ext.data.isEmpty && ext.data.isSuffixOf b && ext.data.length < b.length then
    ⟨b.take (b.length - ext.data.length)⟩
  else ⟨b⟩

/-- pathJoin models Node path.join of two segments for the engine's
inputs: plain concatenation with a separator, except that joining onto a
dot directory returns the second segment unchanged. -/
def pathJoin (a b : String) : String :=
  if a == "." then b else ⟨a.data ++ '/' :: b.data⟩

/-- pathRelative models Node path.relative for the descendant case used
by the engine: the suffix of the path after the root and its separator;
the path itself equal to the root gives the empty string. Paths outside
the root (never produced by the engine) are returned unchanged. -/
def pathRelative (root p : String) : String :=
  if p == root then ""
  else if (root.data ++ ['/']).isPrefixOf p.data then ⟨p.data.drop (root.data.length + 1)⟩
  else p

/-- BackupOptions mirrors the BackupOptions interface of the source. -/
structure BackupOptions where
  preserveStructure : Bool
  includeHiddenFiles : Bool
  createTimestampFolder : Bool
deriving DecidableEq, Repr

/-- RohitIgnorePattern mirrors the RohitIgnorePattern interface of the
source. -/
structure RohitIgnorePattern where
  pattern : String
  isDirectory : Bool
  isGlob : Bool
deriving DecidableEq, Repr

/-- parseLines is the line loop of parseRohitIgnore: trim each line,
skip empty lines and lines starting with a hash, detect the trailing
slash directory marker, strip it from the pattern, and flag wildcard
patterns containing a star or question mark. -/
def parseLines : List String → List RohitIgnorePattern
  | [] => []
  | line :: rest =>
    let trimmed := jsTrim line
    if trimmed != "" && !jsStartsWith trimmed "#" then
      let isDirectory := jsEndsWith trimmed "/"
      let pattern := if isDirectory then strDropLast trimmed else trimmed
      let isGlob := hasChar pattern '*' || hasChar pattern '?'
      { pattern := pattern, isDirectory := isDirectory, isGlob := isGlob } :: parseLines rest
    else parseLines rest

/-- parseRohitIgnoreContent is parseRohitIgnore applied to the text read
from the ignore file (the file-read itself is input and output and is
modelled by passing the content). -/
def parseRohitIgnoreContent (content : String) : List RohitIgnorePattern :=
  parseLines (jsSplitLines content)

/-- GRegexBase is an atom of the JavaScript regular expression dialect
generated by shouldIgnore: a literal character or the dot wildcard. -/
inductive GRegexBase where
  | lit (c : Char)
  | anyChar
deriving DecidableEq, Repr

/-- GRegexQuant is the quantifier attached to a generated atom. -/
inductive GRegexQuant where
  | one
  | star
  | opt
deriving DecidableEq, Repr

/-- GRegexAtom is a quantified atom of the generated pattern. -/
structure GRegexAtom where
  base : GRegexBase
  quant : GRegexQuant
deriving DecidableEq, Repr

/-- mkAtom builds an atom, reading a dot as the any-character class as
JavaScript RegExp does. -/
def mkAtom (c : Char) (q : GRegexQuant) : GRegexAtom :=
  ⟨if c == '.' then GRegexBase.anyChar else GRegexBase.lit c, q⟩

/-- compileRegexChars parses the fragment of the JavaScript RegExp
dialect that shouldIgnore generates: ordinary characters are literals, a
dot matches any character, and a postfix star or question mark
quantifies the preceding atom. Other metacharacters (classes, groups,
escapes) never arise from the engine's ignore patterns and are read as
literals. -/
def compileRegexChars : List Char → List GRegexAtom
  | [] => []
  | c :: '*' :: rest => mkAtom c .star :: compileRegexChars rest
  | c :: '?' :: rest => mkAtom c .opt :: compileRegexChars rest
  | c :: rest => mkAtom c .one :: compileRegexChars rest

/-- baseAccepts tests one input character against an atom base. -/
def baseAccepts : GRegexBase → Char → Bool
  | .anyChar, _ => true
  | .lit c, d => c == d

/-- regexAccepts decides whether the anchored generated pattern matches
the whole input; a starred atom consumes any run of accepted characters
and an optional atom at most one. -/
def regexAccepts : List GRegexAtom → List Char → Bool
  | [], s => s.isEmpty
  | a :: rest, s =>
    match a.quant with
    | .one =>
      match s with
      | [] => false
      | c :: cs => baseAccepts a.base c && regexAccepts rest cs
    | .opt =>
      regexAccepts rest s ||
        (match s with
         | [] => false
         | c :: cs => baseAccepts a.base c && regexAccepts rest cs)
    | .star =>
      (List.range (s.length + 1)).any (fun k =>
        (s.take k).all (baseAccepts a.base) && regexAccepts rest (s.drop k))

/-- expandStars is the replace step of shouldIgnore: every star becomes
a dot followed by a star. -/
def expandStars : List Char → List Char
  | [] => []
  | '*' :: rest => '.' :: '*' :: expandStars rest
  | c :: rest => c :: expandStars rest

/-- globRegexTest is the anchored RegExp test that shouldIgnore performs
for a wildcard pattern. -/
def globRegexTest (pattern : String) (input : String) : Bool :=
  regexAccepts (compileRegexChars (expandStars pattern.data)) input.data

/-- shouldIgnore is the pattern loop of the source: directory-only rules
are skipped for files, wildcard rules test the generated regular
expression against the base name and the workspace-relative path, plain
rules compare them for equality, and the first hit returns true. -/
def shouldIgnore (itemPath workspaceRoot : String) (isDirectory : Bool) :
    List RohitIgnorePattern → Bool
  | [] => false
  | pat :: rest =>
    let relativePath := pathRelative workspaceRoot itemPath
    let itemName := pathBasename itemPath
    if pat.isDirectory && !isDirectory then
      shouldIgnore itemPath workspaceRoot isDirectory rest
    else if pat.isGlob then
      if globRegexTest pat.pattern itemName || globRegexTest pat.pattern relativePath then true
      else shouldIgnore itemPath workspaceRoot isDirectory rest
    else
      if itemName == pat.pattern || relativePath == pat.pattern then true
      else shouldIgnore itemPath workspaceRoot isDirectory rest

/-- digitCharOf renders one decimal digit as JavaScript does. -/
def digitCharOf (d : Nat) : Char :=
  match d with
  | 0 => '0' | 1 => '1' | 2 => '2' | 3 => '3' | 4 => '4'
  | 5 => '5' | 6 => '6' | 7 => '7' | 8 => '8' | 9 => '9'
  | _ => '0'

/-- natToCharsCore renders a natural number in decimal, most significant
digit first; the structural fuel argument strictly exceeds the number of
division steps whenever it exceeds the number itself. -/
def natToCharsCore : Nat → Nat → List Char
  | 0, _ => []
  | fuel + 1, n =>
    if n < 10 then [digitCharOf n]
    else natToCharsCore fuel (n / 10) ++ [digitCharOf (n % 10)]

/-- jsNatRepr models the JavaScript template interpolation of the copy
counter: its decimal representation. -/
def jsNatRepr (n : Nat) : String := ⟨natToCharsCore (n + 1) n⟩

/-- digitValOf reads a decimal digit character back, for the round-trip
argument below. -/
def digitValOf (c : Char) : Nat :=
  match c with
  | '0' => 0 | '1' => 1 | '2' => 2 | '3' => 3 | '4' => 4
  | '5' => 5 | '6' => 6 | '7' => 7 | '8' => 8 | '9' => 9
  | _ => 0

/-- charsVal decodes a most-significant-first decimal digit string. -/
def charsVal (l : List Char) : Nat :=
  l.foldl (fun a c => 10 * a + digitValOf c) 0

/-- conflictCandidate is the disambiguated path that the conflict loop
of copyFileWithStructure builds from the final destination path and the
counter: directory, base name without extension, the counter in
parentheses, and the extension. -/
def conflictCandidate (finalDestinationPath : String) (counter : Nat) : String :=
  let ext := pathExtname finalDestinationPath
  let nameWithoutExt := pathBasenameStrip finalDestinationPath ext
  let dir := pathDirname finalDestinationPath
  pathJoin dir (nameWithoutExt ++ "(" ++ jsNatRepr counter ++ ")" ++ ext)

/-- resolveConflictLoop is the while loop of copyFileWithStructure over
a snapshot of the existing destination paths: while the current
candidate exists, build the next numbered candidate and increment the
counter. The structural fuel argument is supplied by the caller; the
development proves that the loop finds a free name long before any
sufficiently large fuel runs out. -/
def resolveConflictLoop (fsExisting : List String) (finalDestinationPath : String) :
    Nat → Nat → String → String
  | 0, _, actual => actual
  | fuel + 1, counter, actual =>
    if fsExisting.contains actual then
      resolveConflictLoop fsExisting finalDestinationPath fuel (counter + 1)
        (conflictCandidate finalDestinationPath counter)
    else actual

/-- finalDestinationPath is the target computation of
copyFileWithStructure: under structure preservation the destination
joined with the workspace-relative source path, otherwise the
destination joined with the source base name. -/
def finalDestinationPath (sourcePath destinationPath workspaceRoot : String)
    (options : BackupOptions) : String :=
  if options.preserveStructure then
    pathJoin destinationPath (pathRelative workspaceRoot sourcePath)
  else
    pathJoin destinationPath (pathBasename sourcePath)

/-- copyFileWithStructure returns the path actually written by the copy
routine, given the set of destination paths that already exist; the
directory-creation and byte-copy side effects are not modelled. -/
def copyFileWithStructure (fsExisting : List String)
    (sourcePath destinationPath workspaceRoot : String) (options : BackupOptions) : String :=
  let finalPath := finalDestinationPath sourcePath destinationPath workspaceRoot options
  resolveConflictLoop fsExisting finalPath (fsExisting.length + 2) 1 finalPath

/-- specGlobFullMatch renders the specification's description of
wildcard matching, where a star matches any run of characters and every
other character only matches itself literally. -/
def specGlobFullMatch : List Char → List Char → Bool
  | [], s => s.isEmpty
  | '*' :: ps, s => (List.range (s.length + 1)).any (fun k => specGlobFullMatch ps (s.drop k))
  | c :: ps, s =>
    match s with
    | [] => false
    | d :: ds => c == d && specGlobFullMatch ps ds

/-- FileItem mirrors the FileItem interface fields that the selection
logic reads and writes; the optional isParent and isSelected display
flags are recomputed from state where the source consults them. -/
structure FileItem where
  label : String
  description : String
  detail : String
  filePath : String
  isDirectory : Bool
deriving DecidableEq, Repr

/-- FsTree models one file-system entry for the scanner: a named file
or a named directory with its children in readdir order. -/
inductive FsTree where
  | file (name : String)
  | dir (name : String) (children : List FsTree)

/-- FsTree.entryName is the entry's name. -/
def FsTree.entryName : FsTree → String
  | .file n => n
  | .dir n _ => n

/-- FsTree.isDir is the statSync isDirectory test. -/
def FsTree.isDir : FsTree → Bool
  | .file _ => false
  | .dir _ _ => true

/-- ignoredDirs is the built-in directory exclusion list of the
scanner. -/
def ignoredDirs : List String :=
  [".git", "node_modules", ".vscode", "dist", "build", "out", ".next", ".nuxt",
   "coverage", "target", "bin", "obj"]

/-- ignoredFiles is the built-in file exclusion list of the scanner. -/
def ignoredFiles : List String :=
  [".DS_Store", "Thumbs.db", ".gitignore", ".eslintrc", ".prettierrc",
   "package-lock.json", "yarn.lock"]

/-- scanDirTree is the scanDirectory recursion of
getAllFilesInDirectory over the modelled file system: each entry is
skipped when hidden files are excluded and its name starts with a dot,
when its name is on the built-in directory or file exclusion list, or
when shouldIgnore matches it; surviving directories are scanned
recursively and surviving files are collected. -/
def scanDirTree (options : BackupOptions) (patterns : List RohitIgnorePattern)
    (workspaceRoot : String) : FsTree → String → List String
  | .file _, _ => []
  | .dir _ children, currentPath =>
    children.attach.foldr
      (fun ⟨child, _⟩ acc =>
        (let entry := child.entryName
         let itemPath := pathJoin currentPath entry
         let isDirectory := child.isDir
         if !options.includeHiddenFiles && jsStartsWith entry "." then []
         else if isDirectory && ignoredDirs.contains entry then []
         else if !isDirectory && ignoredFiles.contains entry then []
         else if shouldIgnore itemPath workspaceRoot isDirectory patterns then []
         else if isDirectory then scanDirTree options patterns workspaceRoot child itemPath
         else [itemPath]) ++ acc)
      []
decreasing_by
  have := List.sizeOf_lt_of_mem ‹child ∈ children›
  simp [FsTree.dir.sizeOf_spec]
  omega

/-- getAllFilesInDirectory lists every non-excluded file under the
directory, whose contents are given by the tree. -/
def getAllFilesInDirectory (tree : FsTree) (dirPath workspaceRoot : String)
    (options : BackupOptions) (patterns : List RohitIgnorePattern) : List String :=
  scanDirTree options patterns workspaceRoot tree dirPath

/-- isItemSelected is the selection predicate of the source: exact
membership for a file; for a directory, false when its recursive file
list is empty, and otherwise the conjunction over that list. -/
def isItemSelected (tree : FsTree) (itemPath : String) (isDirectory : Bool)
    (selectedFiles : List FileItem) (workspaceRoot : String)
    (options : BackupOptions) (patterns : List RohitIgnorePattern) : Bool :=
  if !isDirectory then
    selectedFiles.any (fun f => f.filePath == itemPath)
  else
    let allFilesInDir := getAllFilesInDirectory tree itemPath workspaceRoot options patterns
    if allFilesInDir.length == 0 then false
    else allFilesInDir.all (fun fp => selectedFiles.any (fun f => f.filePath == fp))

/-- removeFirstByPath is the findIndex-and-splice removal: delete the
first selected item carrying the given path, if any. -/
def removeFirstByPath : List FileItem → String → List FileItem
  | [], _ => []
  | it :: rest, p => if it.filePath == p then rest else it :: removeFirstByPath rest p

/-- dirItemDescriptor is the item pushed when a folder toggle selects a
file: base name label, workspace-relative description, and the path. -/
def dirItemDescriptor (workspaceRoot filePath : String) : FileItem :=
  { label := pathBasename filePath
    description := pathRelative workspaceRoot filePath
    detail := filePath
    filePath := filePath
    isDirectory := false }

/-- isDirectoryFullySelected is the aggregate selection state the
navigator displays for a folder and consults before toggling it: the
snapshot is non-empty and every file in it is selected. -/
def isDirectoryFullySelected (selectedFiles : List FileItem) (allFilesInDir : List String) : Bool :=
  !allFilesInDir.isEmpty &&
    allFilesInDir.all (fun fp => selectedFiles.any (fun f => f.filePath == fp))

/-- addSelected is the body of the folder-selection loop: push a
descriptor for the file unless an entry with its path is already
present. -/
def addSelected (workspaceRoot : String) (sel : List FileItem) (fp : String) : List FileItem :=
  if sel.any (fun f => f.filePath == fp) then sel
  else sel ++ [dirItemDescriptor workspaceRoot fp]

/-- toggleDirectory is the folder-toggle arm of navigateAndSelectFiles,
evaluated against one snapshot of the folder's recursive file list: when
the folder is currently fully selected every listed file is spliced out,
otherwise every listed file not already present is pushed. -/
def toggleDirectory (selectedFiles : List FileItem) (allFilesInDir : List String)
    (workspaceRoot : String) : List FileItem :=
  if isDirectoryFullySelected selectedFiles allFilesInDir then
    allFilesInDir.foldl removeFirstByPath selectedFiles
  else
    allFilesInDir.foldl (addSelected workspaceRoot) selectedFiles

/-- toggleFile is the file-toggle arm of navigateAndSelectFiles: splice
the item out when its path is present, push the picked item otherwise. -/
def toggleFile (selectedFiles : List FileItem) (selected : FileItem) : List FileItem :=
  if selectedFiles.any (fun f => f.filePath == selected.filePath) then
    removeFirstByPath selectedFiles selected.filePath
  else selectedFiles ++ [selected]

/-- DirSubAction is the response to the enter-or-toggle prompt shown
after picking a folder. -/
inductive DirSubAction where
  | cancel
  | enter
  | toggle
deriving DecidableEq, Repr

/-- NavEvent is one response of the external picker during navigation;
a folder pick carries the picked folder's path and contents so that the
toggle arm can scan it, and a file pick carries the picked item. -/
inductive NavEvent where
  | cancel
  | done
  | parent
  | dir (contents : FsTree) (dirPath : String) (sub : DirSubAction)
  | file (item : FileItem)

/-- navigate is the navigateAndSelectFiles loop driven by a script of
picker responses: cancellation of the main picker returns the empty
selection, the done entry returns the accumulated selection, the parent
entry moves the cursor up, a folder pick enters, toggles, or does
nothing according to the sub-prompt, and a file pick toggles the file.
An exhausted script, where the real loop would still await the user, is
the none result. -/
def navigate (workspaceRoot : String) (options : BackupOptions)
    (patterns : List RohitIgnorePattern) :
    List NavEvent → List FileItem → String → Option (List FileItem)
  | [], _, _ => none
  | e :: rest, selectedFiles, currentPath =>
    match e with
    | .cancel => some []
    | .done => some selectedFiles
    | .parent => navigate workspaceRoot options patterns rest selectedFiles (pathDirname currentPath)
    | .dir contents dirPath sub =>
      match sub with
      | .cancel => navigate workspaceRoot options patterns rest selectedFiles currentPath
      | .enter => navigate workspaceRoot options patterns rest selectedFiles dirPath
      | .toggle =>
        navigate workspaceRoot options patterns rest
          (toggleDirectory selectedFiles
            (getAllFilesInDirectory contents dirPath workspaceRoot options patterns)
            workspaceRoot)
          currentPath
    | .file item =>
      navigate workspaceRoot options patterns rest (toggleFile selectedFiles item) currentPath

/-- PostNavStep is what backupProject does right after navigation
returns: abort with the no-files message, or show the destination
folder dialog. -/
inductive PostNavStep where
  | noFilesSelected
  | promptDestination
deriving DecidableEq, Repr

/-- backupAfterSelection is the guard in backupProject between the
navigation result and the destination dialog. -/
def backupAfterSelection (selectedItems : List FileItem) : PostNavStep :=
  if selectedItems.length == 0 then .noFilesSelected else .promptDestination

/-- selPaths lists the file paths of a selection, in order. -/
def selPaths (sel : List FileItem) : List String := sel.map (fun f => f.filePath)

/-- patternMatches is the per-rule matching relation that the
shouldIgnore loop tests: directory-only rules never match files,
wildcard rules run the generated anchored regular expression against
the base name and the relative path, and plain rules compare them for
equality. -/
def patternMatches (itemName relativePath : String) (isDirectory : Bool)
    (pat : RohitIgnorePattern) : Bool :=
  if pat.isDirectory && !isDirectory then false
  else if pat.isGlob then
    globRegexTest pat.pattern itemName || globRegexTest pat.pattern relativePath
  else itemName == pat.pattern || relativePath == pat.pattern

/-- ruleOfLineSpec renders the claim's per-line description of the
ignore parser: a line that is blank or whose first non-whitespace
character is a hash yields no rule; any other line yields one rule
whose pattern is the trimmed line with a trailing separator stripped,
whose directory flag records that separator, and whose wildcard flag
records a star or question mark in the pattern. -/
def ruleOfLineSpec (line : String) : Option RohitIgnorePattern :=
  match line.data.dropWhile wsChar with
  | [] => none
  | c :: _ =>
    if c = '#' then none
    else
      let trimmed := jsTrim line
      let isDirectory := jsEndsWith trimmed "/"
      let pattern := if isDirectory then strDropLast trimmed else trimmed
      some { pattern := pattern, isDirectory := isDirectory,
             isGlob := hasChar pattern '*' || hasChar pattern '?' }

/-! Decimal rendering round-trips, so distinct counters give distinct
disambiguated names. -/

theorem digitValOf_digitCharOf {d : Nat} (h : d < 10) :
    digitValOf (digitCharOf d) = d := by
  interval_cases d <;> rfl

theorem charsVal_append_digit (xs : List Char) (c : Char) :
    charsVal (xs ++ [c]) = 10 * charsVal xs + digitValOf c := by
  simp [charsVal, List.foldl_append]

theorem charsVal_natToCharsCore :
    ∀ fuel n, n < fuel → charsVal (natToCharsCore fuel n) = n := by
  intro fuel
  induction fuel with
  | zero => intro n h; omega
  | succ fuel ih =>
    intro n h
    by_cases h10 : n < 10
    · simp [natToCharsCore, h10, charsVal, digitValOf_digitCharOf h10]
    · have hpos : 0 < n := by omega
      have hdiv : n / 10 < n := Nat.div_lt_self hpos (by omega)
      have hfuel : n / 10 < fuel := by omega
      simp only [natToCharsCore, if_neg h10]
      rw [charsVal_append_digit, ih _ hfuel,
        digitValOf_digitCharOf (Nat.mod_lt n (by omega))]
      omega

theorem jsNatRepr_injective : Function.Injective jsNatRepr := by
  intro a b h
  have hdata : natToCharsCore (a + 1) a = natToCharsCore (b + 1) b :=
    congrArg String.data h
  have ha := charsVal_natToCharsCore (a + 1) a (by omega)
  have hb := charsVal_natToCharsCore (b + 1) b (by omega)
  rw [← ha, ← hb, hdata]

theorem pathJoin_right_injective (d : String) : Function.Injective (pathJoin d) := by
  intro x y h
  by_cases hdot : (d == ".") = true
  · simpa [pathJoin, hdot] using h
  · simp only [pathJoin, hdot, Bool.false_eq_true, if_false] at h
    have hd : d.data ++ '/' :: x.data = d.data ++ '/' :: y.data := congrArg String.data h
    have h1 := List.append_cancel_left hd
    exact String.ext (List.cons.inj h1).2

theorem conflictCandidate_injective (f : String) :
    Function.Injective (conflictCandidate f) := by
  intro a b h
  unfold conflictCandidate at h
  have hs := pathJoin_right_injective _ h
  have hd : (pathBasenameStrip f (pathExtname f)).data ++ ("(".data ++
      ((jsNatRepr a).data ++ (")".data ++ (pathExtname f).data))) =
      (pathBasenameStrip f (pathExtname f)).data ++ ("(".data ++
      ((jsNatRepr b).data ++ (")".data ++ (pathExtname f).data))) := by
    have := congrArg String.data hs
    simpa [String.data_append, List.append_assoc] using this
  have h1 := List.append_cancel_left hd
  have h2 := List.append_cancel_left h1
  have h3 := List.append_cancel_right h2
  exact jsNatRepr_injective (String.ext h3)

/-! The conflict loop of copyFileWithStructure always finds a free
name: the numbered candidates are pairwise distinct, so a list of
existing paths cannot contain them all. -/

theorem exists_free_candidate (fs : List String) (f : String) :
    ∃ d, d ≤ fs.length ∧ fs.contains (conflictCandidate f (1 + d)) = false := by
  by_contra hall
  push_neg at hall
  have hmem : ∀ d, d ≤ fs.length → conflictCandidate f (1 + d) ∈ fs := by
    intro d hd
    have hne := hall d hd
    have hb : fs.contains (conflictCandidate f (1 + d)) = true := by
      cases hcc : fs.contains (conflictCandidate f (1 + d)) with
      | false => exact absurd hcc hne
      | true => rfl
    exact List.elem_iff.mp hb
  have hinj : Function.Injective (fun d : Nat => conflictCandidate f (1 + d)) := by
    intro d₁ d₂ hcc
    have := conflictCandidate_injective f hcc
    omega
  have hsub : (Finset.range (fs.length + 1)).image (fun d => conflictCandidate f (1 + d)) ⊆
      fs.toFinset := by
    intro x hx
    simp only [Finset.mem_image, Finset.mem_range] at hx
    obtain ⟨d, hd, rfl⟩ := hx
    exact List.mem_toFinset.mpr (hmem d (by omega))
  have hcard := Finset.card_le_card hsub
  rw [Finset.card_image_of_injective _ hinj, Finset.card_range] at hcard
  have := fs.toFinset_card_le
  omega

theorem resolveConflictLoop_free (fs : List String) (f : String) (fuel counter : Nat)
    (actual : String) (h : fs.contains actual = false) :
    resolveConflictLoop fs f fuel counter actual = actual := by
  cases fuel with
  | zero => rfl
  | succ fuel => simp only [resolveConflictLoop, h, Bool.false_eq_true, if_false]

theorem resolveConflictLoop_busy (fs : List String) (f : String) :
    ∀ d fuel counter (actual : String), fs.contains actual = true →
      fs.contains (conflictCandidate f (counter + d)) = false →
      (∀ e, e < d → fs.contains (conflictCandidate f (counter + e)) = true) →
      d + 1 ≤ fuel →
      resolveConflictLoop fs f fuel counter actual = conflictCandidate f (counter + d) := by
  intro d
  induction d with
  | zero =>
    intro fuel counter actual ha hfree _ hfuel
    obtain ⟨fuel, rfl⟩ : ∃ g, fuel = g + 1 := ⟨fuel - 1, by omega⟩
    simp only [resolveConflictLoop, ha, if_true]
    exact resolveConflictLoop_free fs f fuel (counter + 1) _ (by simpa using hfree)
  | succ d ih =>
    intro fuel counter actual ha hfree hbusy hfuel
    obtain ⟨fuel, rfl⟩ : ∃ g, fuel = g + 1 := ⟨fuel - 1, by omega⟩
    simp only [resolveConflictLoop, ha, if_true]
    have h0 : fs.contains (conflictCandidate f counter) = true := by
      have := hbusy 0 (by omega)
      simpa using this
    have hstep := ih fuel (counter + 1) (conflictCandidate f counter) h0
      (by have : counter + 1 + d = counter + (d + 1) := by omega
          rw [this]; exact hfree)
      (by intro e he
          have : counter + 1 + e = counter + (e + 1) := by omega
          rw [this]; exact hbusy (e + 1) (by omega))
      (by omega)
    rw [hstep]
    have : counter + 1 + d = counter + (d + 1) := by omega
    rw [this]

theorem copyFileWithStructure_spec (fs : List String) (src dst root : String)
    (opts : BackupOptions) :
    (fs.contains (finalDestinationPath src dst root opts) = false →
      copyFileWithStructure fs src dst root opts = finalDestinationPath src dst root opts) ∧
    (fs.contains (finalDestinationPath src dst root opts) = true →
      ∃ n, 1 ≤ n ∧
        fs.contains (conflictCandidate (finalDestinationPath src dst root opts) n) = false ∧
        (∀ m, 1 ≤ m → m < n →
          fs.contains (conflictCandidate (finalDestinationPath src dst root opts) m) = true) ∧
        copyFileWithStructure fs src dst root opts =
          conflictCandidate (finalDestinationPath src dst root opts) n) := by
  constructor
  · intro h
    exact resolveConflictLoop_free fs _ _ 1 _ h
  · intro h
    have hex : ∃ d, fs.contains
        (conflictCandidate (finalDestinationPath src dst root opts) (1 + d)) = false := by
      obtain ⟨d, _, hd⟩ := exists_free_candidate fs (finalDestinationPath src dst root opts)
      exact ⟨d, hd⟩
    refine ⟨1 + Nat.find hex, by omega, Nat.find_spec hex, ?_, ?_⟩
    · intro m h1 h2
      have he : ¬ fs.contains
          (conflictCandidate (finalDestinationPath src dst root opts) (1 + (m - 1))) = false :=
        Nat.find_min hex (by omega)
      have hm : 1 + (m - 1) = m := by omega
      rw [hm] at he
      cases hcc : fs.contains (conflictCandidate (finalDestinationPath src dst root opts) m) with
      | false => exact absurd hcc he
      | true => rfl
    · obtain ⟨dw, hdw, hw⟩ := exists_free_candidate fs (finalDestinationPath src dst root opts)
      have hle : Nat.find hex ≤ dw := Nat.find_min' hex hw
      exact resolveConflictLoop_busy fs _ (Nat.find hex) (fs.length + 2) 1 _ h
        (Nat.find_spec hex)
        (by intro e he
            have hne := Nat.find_min hex he
            cases hcc : fs.contains
                (conflictCandidate (finalDestinationPath src dst root opts) (1 + e)) with
            | false => exact absurd hcc hne
            | true => rfl)
        (by omega)

theorem pathRelative_pathJoin (root rel : String) (h : root ≠ ".") :
    pathRelative root (pathJoin root rel) = rel := by
  have hne : (root == ".") = false := beq_eq_false_iff_ne.mpr h
  simp only [pathJoin, hne, Bool.false_eq_true, if_false]
  have hsplit : root.data ++ '/' :: rel.data = (root.data ++ ['/']) ++ rel.data := by
    simp [List.append_assoc]
  have hne2 : ((⟨root.data ++ '/' :: rel.data⟩ : String) == root) = false := by
    apply beq_eq_false_iff_ne.mpr
    intro hEq
    have hlen := congrArg (fun s : String => s.data.length) hEq
    simp only [List.length_append, List.length_cons] at hlen
    omega
  have hpre : (root.data ++ ['/']).isPrefixOf (root.data ++ '/' :: rel.data) = true := by
    rw [List.isPrefixOf_iff_prefix, hsplit]
    exact List.prefix_append _ _
  simp only [pathRelative, hne2, Bool.false_eq_true, if_false, hpre, if_true]
  apply String.ext
  show (root.data ++ '/' :: rel.data).drop (root.data.length + 1) = rel.data
  rw [hsplit]
  have hl : root.data.length + 1 = (root.data ++ ['/']).length := by simp
  rw [hl, List.drop_left]

/-- C1: for every source file and destination state, the copy routine
never overwrites an existing destination file: when a file already
exists at the computed target path, the path actually written differs
from it, is itself free, and is the numbered candidate obtained by
inserting a parenthesized counter before the extension, the counter
having been incremented past every occupied candidate. -/
theorem copy_never_overwrites (fs : List String) (src dst root : String)
    (opts : BackupOptions)
    (h : fs.contains (finalDestinationPath src dst root opts) = true) :
    copyFileWithStructure fs src dst root opts ≠ finalDestinationPath src dst root opts ∧
    fs.contains (copyFileWithStructure fs src dst root opts) = false ∧
    ∃ n, 1 ≤ n ∧
      copyFileWithStructure fs src dst root opts =
        conflictCandidate (finalDestinationPath src dst root opts) n ∧
      ∀ m, 1 ≤ m → m < n →
        fs.contains (conflictCandidate (finalDestinationPath src dst root opts) m) = true := by
  obtain ⟨n, h1, hfree, hmin, heq⟩ := (copyFileWithStructure_spec fs src dst root opts).2 h
  refine ⟨?_, ?_, n, h1, heq, hmin⟩
  · intro hcontra
    have hx : fs.contains (conflictCandidate (finalDestinationPath src dst root opts) n) = true := by
      rw [← heq, hcontra]; exact h
    rw [hfree] at hx
    exact Bool.false_ne_true hx
  · rw [heq]; exact hfree

/-- Witness for C1 at a concrete collision: the destination already
holds a file at the computed target. -/
theorem copy_never_overwrites_witness :
    List.contains ["/dst/a/b.txt"]
      (finalDestinationPath "/ws/a/b.txt" "/dst" "/ws" ⟨true, false, false⟩) = true ∧
    (copyFileWithStructure ["/dst/a/b.txt"] "/ws/a/b.txt" "/dst" "/ws" ⟨true, false, false⟩ ≠
      finalDestinationPath "/ws/a/b.txt" "/dst" "/ws" ⟨true, false, false⟩ ∧
    List.contains ["/dst/a/b.txt"]
      (copyFileWithStructure ["/dst/a/b.txt"] "/ws/a/b.txt" "/dst" "/ws" ⟨true, false, false⟩) = false ∧
    ∃ n, 1 ≤ n ∧
      copyFileWithStructure ["/dst/a/b.txt"] "/ws/a/b.txt" "/dst" "/ws" ⟨true, false, false⟩ =
        conflictCandidate (finalDestinationPath "/ws/a/b.txt" "/dst" "/ws" ⟨true, false, false⟩) n ∧
      ∀ m, 1 ≤ m → m < n →
        List.contains ["/dst/a/b.txt"]
          (conflictCandidate (finalDestinationPath "/ws/a/b.txt" "/dst" "/ws" ⟨true, false, false⟩) m) = true) :=
  ⟨by decide, copy_never_overwrites ["/dst/a/b.txt"] "/ws/a/b.txt" "/dst" "/ws" ⟨true, false, false⟩ (by decide)⟩

/-- C10: the collision-resolution loop terminates with the original
target path when it is free, and otherwise with the candidate carrying
the smallest counter of at least one whose numbered name is not among
the existing paths; such a counter always exists for a finite existing
set. -/
theorem conflict_loop_minimal_free (fs : List String) (src dst root : String)
    (opts : BackupOptions) :
    (fs.contains (finalDestinationPath src dst root opts) = false →
      copyFileWithStructure fs src dst root opts = finalDestinationPath src dst root opts) ∧
    (fs.contains (finalDestinationPath src dst root opts) = true →
      ∃ n, 1 ≤ n ∧
        fs.contains (conflictCandidate (finalDestinationPath src dst root opts) n) = false ∧
        (∀ m, 1 ≤ m → m < n →
          fs.contains (conflictCandidate (finalDestinationPath src dst root opts) m) = true) ∧
        copyFileWithStructure fs src dst root opts =
          conflictCandidate (finalDestinationPath src dst root opts) n) :=
  copyFileWithStructure_spec fs src dst root opts

/-- Witness for C10 covering both branches: a free target is returned
unchanged, and an occupied target yields the least free numbered
candidate. -/
theorem conflict_loop_minimal_free_witness :
    (copyFileWithStructure ([] : List String) "/ws/a/b.txt" "/dst" "/ws" ⟨true, false, false⟩ =
      finalDestinationPath "/ws/a/b.txt" "/dst" "/ws" ⟨true, false, false⟩) ∧
    (∃ n, 1 ≤ n ∧
      List.contains ["/dst/b.txt", "/dst/b(1).txt"]
        (conflictCandidate (finalDestinationPath "/ws/a/b.txt" "/dst" "/ws" ⟨false, false, false⟩) n) = false ∧
      (∀ m, 1 ≤ m → m < n →
        List.contains ["/dst/b.txt", "/dst/b(1).txt"]
          (conflictCandidate (finalDestinationPath "/ws/a/b.txt" "/dst" "/ws" ⟨false, false, false⟩) m) = true) ∧
      copyFileWithStructure ["/dst/b.txt", "/dst/b(1).txt"] "/ws/a/b.txt" "/dst" "/ws" ⟨false, false, false⟩ =
        conflictCandidate (finalDestinationPath "/ws/a/b.txt" "/dst" "/ws" ⟨false, false, false⟩) n) :=
  ⟨(conflict_loop_minimal_free ([] : List String) "/ws/a/b.txt" "/dst" "/ws" ⟨true, false, false⟩).1 (by decide),
   (conflict_loop_minimal_free ["/dst/b.txt", "/dst/b(1).txt"] "/ws/a/b.txt" "/dst" "/ws" ⟨false, false, false⟩).2 (by decide)⟩

/-- C2 (counterexample): with structure preservation on but a file
already present at the computed target, the written path picks up a
numeric disambiguator, so its path relative to the destination root no
longer equals the source's path relative to the workspace root. -/
theorem roundtrip_fails_on_collision :
    pathRelative "/dst"
      (copyFileWithStructure ["/dst/a/b.txt"] "/ws/a/b.txt" "/dst" "/ws" ⟨true, false, false⟩) =
      "a/b(1).txt" ∧
    pathRelative "/ws" "/ws/a/b.txt" = "a/b.txt" ∧
    ("a/b(1).txt" : String) ≠ "a/b.txt" := by decide

/-- C2 (amended): when structure preservation is on and no file already
exists at the computed target path, the written file's path relative to
the effective destination root equals the source file's path relative
to the workspace root. -/
theorem preserve_structure_roundtrip (fs : List String) (src dst root : String)
    (opts : BackupOptions) (hp : opts.preserveStructure = true) (hdot : dst ≠ ".")
    (hfree : fs.contains (finalDestinationPath src dst root opts) = false) :
    pathRelative dst (copyFileWithStructure fs src dst root opts) = pathRelative root src := by
  rw [(copyFileWithStructure_spec fs src dst root opts).1 hfree]
  unfold finalDestinationPath
  rw [hp]
  simp only [if_true]
  exact pathRelative_pathJoin dst _ hdot

/-- Witness for the amended C2 on a fresh destination. -/
theorem preserve_structure_roundtrip_witness :
    (⟨true, false, false⟩ : BackupOptions).preserveStructure = true ∧
    ("/dst" : String) ≠ "." ∧
    List.contains ([] : List String)
      (finalDestinationPath "/ws/a/b.txt" "/dst" "/ws" ⟨true, false, false⟩) = false ∧
    pathRelative "/dst"
      (copyFileWithStructure ([] : List String) "/ws/a/b.txt" "/dst" "/ws" ⟨true, false, false⟩) =
      pathRelative "/ws" "/ws/a/b.txt" :=
  ⟨by decide, by decide, by decide,
   preserve_structure_roundtrip ([] : List String) "/ws/a/b.txt" "/dst" "/ws" ⟨true, false, false⟩
     (by decide) (by decide) (by decide)⟩

/-! The ignore test is the disjunction of the per-rule matches, where a
wildcard rule carries JavaScript regular-expression semantics for its
non-star characters as well. -/

theorem shouldIgnore_eq_any (itemPath root : String) (isDir : Bool) :
    ∀ pats, shouldIgnore itemPath root isDir pats =
      pats.any (patternMatches (pathBasename itemPath) (pathRelative root itemPath) isDir) := by
  intro pats
  induction pats with
  | nil => rfl
  | cons pat rest ih =>
    simp only [shouldIgnore, List.any_cons, patternMatches]
    by_cases h1 : (pat.isDirectory && !isDir) = true
    · simp [h1, ih]
    · have h1f : (pat.isDirectory && !isDir) = false := by
        cases hb : (pat.isDirectory && !isDir) with
        | false => rfl
        | true => exact absurd hb h1
      by_cases h2 : pat.isGlob = true
      · by_cases h3 : (globRegexTest pat.pattern (pathBasename itemPath) ||
            globRegexTest pat.pattern (pathRelative root itemPath)) = true
        · simp [h1f, h2, h3]
        · have h3f := Bool.eq_false_iff.mpr h3
          simp [h1f, h2, h3f, ih]
      · have h2f : pat.isGlob = false := by
          cases hb : pat.isGlob with
          | false => rfl
          | true => exact absurd hb h2
        by_cases h4 : (pathBasename itemPath == pat.pattern ||
            pathRelative root itemPath == pat.pattern) = true
        · simp [h1f, h2f, h4]
        · have h4f := Bool.eq_false_iff.mpr h4
          simp [h1f, h2f, h4f, ih]

/-- C3 (counterexample): the rule with pattern "file?.txt" is wildcard
flagged but not literal-equivalent: it matches the name "fileZtxt",
which differs from the pattern, and fails to match the name
"file?.txt", which equals the pattern. -/
theorem question_mark_not_literal :
    shouldIgnore "/ws/fileZtxt" "/ws" false [⟨"file?.txt", false, true⟩] = true ∧
    pathBasename "/ws/fileZtxt" = "fileZtxt" ∧
    pathRelative "/ws" "/ws/fileZtxt" = "fileZtxt" ∧
    ("fileZtxt" : String) ≠ "file?.txt" ∧
    shouldIgnore "/ws/file?.txt" "/ws" false [⟨"file?.txt", false, true⟩] = false ∧
    pathBasename "/ws/file?.txt" = "file?.txt" ∧
    pathRelative "/ws" "/ws/file?.txt" = "file?.txt" := by decide

/-- C3 (amended): for a wildcard-flagged, non-directory-only rule, the
ignore test is the anchored JavaScript regular-expression match of the
star-expanded pattern against the base name or the relative path; a
question mark acts as a zero-or-one quantifier on the preceding
character and a dot matches any character, so matching is not literal
equality. -/
theorem question_mark_regex_semantics (p : RohitIgnorePattern) (itemPath root : String)
    (isDir : Bool) (hg : p.isGlob = true) (hd : p.isDirectory = false) :
    shouldIgnore itemPath root isDir [p] =
      (regexAccepts (compileRegexChars (expandStars p.pattern.data))
        (pathBasename itemPath).data ||
       regexAccepts (compileRegexChars (expandStars p.pattern.data))
        (pathRelative root itemPath).data) := by
  rw [shouldIgnore_eq_any itemPath root isDir [p]]
  simp [patternMatches, hg, hd, globRegexTest]

/-- Witness for the amended C3 at the question-mark rule. -/
theorem question_mark_regex_semantics_witness :
    (⟨"file?.txt", false, true⟩ : RohitIgnorePattern).isGlob = true ∧
    (⟨"file?.txt", false, true⟩ : RohitIgnorePattern).isDirectory = false ∧
    shouldIgnore "/ws/fileZtxt" "/ws" false [⟨"file?.txt", false, true⟩] =
      (regexAccepts (compileRegexChars (expandStars ("file?.txt" : String).data))
        (pathBasename "/ws/fileZtxt").data ||
       regexAccepts (compileRegexChars (expandStars ("file?.txt" : String).data))
        (pathRelative "/ws" "/ws/fileZtxt").data) :=
  ⟨by decide, by decide,
   question_mark_regex_semantics ⟨"file?.txt", false, true⟩ "/ws/fileZtxt" "/ws" false
     (by decide) (by decide)⟩

/-- C6 (counterexample): the claim's simple-glob reading of wildcard
rules, with only the star special, rejects the name "aXlog" for the
pattern "*.log", but the code's ignore test accepts it, because the
dot in the pattern is compiled as the regular-expression any-character
class rather than a literal dot. -/
theorem wildcard_not_simple_glob :
    shouldIgnore "/ws/aXlog" "/ws" false [⟨"*.log", false, true⟩] = true ∧
    specGlobFullMatch ("*.log" : String).data ("aXlog" : String).data = false ∧
    pathBasename "/ws/aXlog" = "aXlog" ∧
    pathRelative "/ws" "/ws/aXlog" = "aXlog" ∧
    ("aXlog" : String) ≠ "*.log" := by decide

/-- C6 (amended): the ignore test returns true exactly when some rule
matches, with directory-only rules skipped for files, plain rules
compared for equality, and wildcard rules tested as the generated
anchored JavaScript regular expression, in which the star expands to
any run of characters but remaining metacharacters keep their
regular-expression meaning; on the scenario rules parsed from
"*.log\ntemp/\n# comment\n", the entries a.log and temp are excluded
and notes.txt is retained. -/
theorem ignore_test_is_or_of_rules (itemPath root : String) (isDir : Bool)
    (pats : List RohitIgnorePattern) :
    (shouldIgnore itemPath root isDir pats =
      pats.any (patternMatches (pathBasename itemPath) (pathRelative root itemPath) isDir)) ∧
    shouldIgnore "/ws/a.log" "/ws" false
      (parseRohitIgnoreContent "*.log\ntemp/\n# comment\n") = true ∧
    shouldIgnore "/ws/temp" "/ws" true
      (parseRohitIgnoreContent "*.log\ntemp/\n# comment\n") = true ∧
    shouldIgnore "/ws/notes.txt" "/ws" false
      (parseRohitIgnoreContent "*.log\ntemp/\n# comment\n") = false :=
  ⟨shouldIgnore_eq_any itemPath root isDir pats, by decide, by decide, by decide⟩

/-- C5: the derived directory-selected predicate equals the conjunction
of non-emptiness of the recursively listed file set and membership of
every listed file in the selection; in particular a directory whose
recursive file list is empty after exclusions is never reported
selected, regardless of the selection's contents. -/
theorem directory_selected_iff_all_files (tree : FsTree) (itemPath : String)
    (sel : List FileItem) (root : String) (opts : BackupOptions)
    (pats : List RohitIgnorePattern) :
    isItemSelected tree itemPath true sel root opts pats =
      (!(getAllFilesInDirectory tree itemPath root opts pats).isEmpty &&
       (getAllFilesInDirectory tree itemPath root opts pats).all
         (fun fp => sel.any (fun f => f.filePath == fp))) := by
  simp only [isItemSelected, Bool.not_true, Bool.false_eq_true, if_false]
  cases h : getAllFilesInDirectory tree itemPath root opts pats with
  | nil => simp
  | cons a l => simp

/-! Lemmas about trimming, for the parser characterization. -/

theorem dropWhile_cons_false {p : Char → Bool} :
    ∀ {l : List Char} {c : Char} {cs : List Char}, l.dropWhile p = c :: cs → p c = false := by
  intro l
  induction l with
  | nil => intro c cs h; simp [List.dropWhile] at h
  | cons a t ih =>
    intro c cs h
    by_cases hp : p a = true
    · rw [List.dropWhile_cons, if_pos hp] at h
      exact ih h
    · rw [List.dropWhile_cons, if_neg hp] at h
      cases h
      cases hb : p a with
      | false => rfl
      | true => exact absurd hb hp

theorem dropWhile_append_last {p : Char → Bool} {c : Char} (hc : p c = false) :
    ∀ xs : List Char, (xs ++ [c]).dropWhile p = xs.dropWhile p ++ [c] := by
  intro xs
  induction xs with
  | nil => simp [List.dropWhile, hc]
  | cons a t ih =>
    by_cases hp : p a = true
    · simp only [List.cons_append, List.dropWhile_cons, hp, if_true, ih]
    · simp only [List.cons_append, List.dropWhile_cons, hp, Bool.false_eq_true, if_false]

theorem jsTrim_data_of_dropWhile_nil {s : String} (h : s.data.dropWhile wsChar = []) :
    jsTrim s = "" := by
  apply String.ext
  show ((s.data.dropWhile wsChar).reverse.dropWhile wsChar).reverse = [].append []
  simp [h]

theorem jsTrim_data_cons {s : String} {c : Char} {cs : List Char}
    (h : s.data.dropWhile wsChar = c :: cs) :
    (jsTrim s).data = c :: (cs.reverse.dropWhile wsChar).reverse := by
  have hc : wsChar c = false := dropWhile_cons_false h
  show ((s.data.dropWhile wsChar).reverse.dropWhile wsChar).reverse = _
  rw [h, List.reverse_cons, dropWhile_append_last hc, List.reverse_append]
  simp

theorem parseLines_eq_filterMap :
    ∀ lines : List String, parseLines lines = lines.filterMap ruleOfLineSpec := by
  intro lines
  induction lines with
  | nil => rfl
  | cons line rest ih =>
    rw [List.filterMap_cons]
    cases h : line.data.dropWhile wsChar with
    | nil =>
      have ht : jsTrim line = "" := jsTrim_data_of_dropWhile_nil h
      have hspec : ruleOfLineSpec line = none := by
        simp [ruleOfLineSpec, h]
      rw [hspec]
      simp only [parseLines, ht]
      simpa using ih
    | cons c cs =>
      have ht : (jsTrim line).data = c :: (cs.reverse.dropWhile wsChar).reverse :=
        jsTrim_data_cons h
      have hne : (jsTrim line != "") = true := by
        simp only [bne_iff_ne, ne_eq]
        intro hEq
        rw [hEq] at ht
        exact List.noConfusion ht
      by_cases hc : c = '#'
      · have hstart : jsStartsWith (jsTrim line) "#" = true := by
          show (("#" : String).data.isPrefixOf (jsTrim line).data) = true
          rw [ht, show ("#" : String).data = ['#'] from rfl, hc]
          simp [List.isPrefixOf]
        have hspec : ruleOfLineSpec line = none := by
          simp [ruleOfLineSpec, h, hc]
        rw [hspec]
        simp only [parseLines, hne, hstart, Bool.not_true, Bool.and_false,
          Bool.false_eq_true, if_false]
        exact ih
      · have hstart : jsStartsWith (jsTrim line) "#" = false := by
          show (("#" : String).data.isPrefixOf (jsTrim line).data) = false
          rw [ht, show ("#" : String).data = ['#'] from rfl]
          have hbe : ('#' == c) = false := by
            apply beq_eq_false_iff_ne.mpr
            exact fun hEq => hc hEq.symm
          simp [List.isPrefixOf, hbe]
        have hspec : ruleOfLineSpec line =
            some { pattern := if jsEndsWith (jsTrim line) "/" then strDropLast (jsTrim line)
                     else jsTrim line
                   isDirectory := jsEndsWith (jsTrim line) "/"
                   isGlob := hasChar (if jsEndsWith (jsTrim line) "/" then
                       strDropLast (jsTrim line) else jsTrim line) '*' ||
                     hasChar (if jsEndsWith (jsTrim line) "/" then
                       strDropLast (jsTrim line) else jsTrim line) '?' } := by
          simp [ruleOfLineSpec, h, hc]
        rw [hspec]
        simp only [parseLines, hne, hstart, Bool.not_false, Bool.and_true, if_true]
        rw [ih]

/-- C7: parsing the ignore source yields, in file order, one rule per
line that is neither blank nor has a hash as its first non-whitespace
character; each rule's pattern is the trimmed line with a trailing
separator stripped, its directory flag records that separator, and its
wildcard flag records a star or question mark in the pattern; blank and
comment lines never yield a rule. -/
theorem parse_rules_per_line (content : String) :
    parseRohitIgnoreContent content = (jsSplitLines content).filterMap ruleOfLineSpec :=
  parseLines_eq_filterMap (jsSplitLines content)

/-! Membership bookkeeping for the selection model. -/

theorem any_filePath_iff (sel : List FileItem) (p : String) :
    sel.any (fun f => f.filePath == p) = true ↔ p ∈ selPaths sel := by
  simp only [List.any_eq_true, selPaths, List.mem_map, beq_iff_eq]

theorem removeFirstByPath_sublist (sel : List FileItem) (p : String) :
    (removeFirstByPath sel p).Sublist sel := by
  induction sel with
  | nil => simp [removeFirstByPath]
  | cons it rest ih =>
    simp only [removeFirstByPath]
    by_cases h : (it.filePath == p) = true
    · rw [if_pos h]
      exact List.sublist_cons_self it rest
    · rw [if_neg h]
      exact List.Sublist.cons₂ it ih

theorem nodup_removeFirstByPath {sel : List FileItem} (p : String)
    (hnd : (selPaths sel).Nodup) : (selPaths (removeFirstByPath sel p)).Nodup := by
  simp only [selPaths] at hnd ⊢
  exact ((removeFirstByPath_sublist sel p).map (fun f => f.filePath)).nodup hnd

theorem mem_selPaths_removeFirst_of_ne {sel : List FileItem} {p q : String} (hq : q ≠ p) :
    (q ∈ selPaths (removeFirstByPath sel p) ↔ q ∈ selPaths sel) := by
  induction sel with
  | nil => simp [removeFirstByPath]
  | cons it rest ih =>
    simp only [removeFirstByPath]
    by_cases h : (it.filePath == p) = true
    · rw [if_pos h]
      have hfp : it.filePath = p := beq_iff_eq.mp h
      simp only [selPaths, List.map_cons, List.mem_cons, hfp]
      constructor
      · intro hm; exact Or.inr hm
      · rintro (rfl | hm)
        · exact absurd rfl hq
        · exact hm
    · rw [if_neg h]
      simp only [selPaths, List.map_cons, List.mem_cons] at ih ⊢
      exact or_congr Iff.rfl ih

theorem not_mem_selPaths_removeFirst_self {sel : List FileItem} {p : String}
    (hnd : (selPaths sel).Nodup) : p ∉ selPaths (removeFirstByPath sel p) := by
  induction sel with
  | nil => simp [removeFirstByPath, selPaths]
  | cons it rest ih =>
    simp only [selPaths, List.map_cons, List.nodup_cons] at hnd
    simp only [removeFirstByPath]
    by_cases h : (it.filePath == p) = true
    · rw [if_pos h]
      have hfp : it.filePath = p := beq_iff_eq.mp h
      rw [← hfp]
      exact hnd.1
    · rw [if_neg h]
      have hfp : p ≠ it.filePath := fun hEq => h (beq_iff_eq.mpr hEq.symm)
      simp only [selPaths, List.map_cons, List.mem_cons]
      rintro (hEq | hm)
      · exact hfp hEq
      · exact ih hnd.2 hm

theorem mem_selPaths_foldl_remove :
    ∀ (D : List String) (sel : List FileItem), (selPaths sel).Nodup → ∀ q,
      (q ∈ selPaths (D.foldl removeFirstByPath sel) ↔ q ∈ selPaths sel ∧ q ∉ D) := by
  intro D
  induction D with
  | nil => intro sel _ q; simp
  | cons p D' ih =>
    intro sel hnd q
    rw [List.foldl_cons]
    rw [ih (removeFirstByPath sel p) (nodup_removeFirstByPath p hnd) q]
    by_cases hq : q = p
    · subst hq
      constructor
      · rintro ⟨hm, _⟩
        exact absurd hm (not_mem_selPaths_removeFirst_self hnd)
      · rintro ⟨_, hnp⟩
        exact absurd (List.mem_cons_self q D') hnp
    · rw [mem_selPaths_removeFirst_of_ne hq]
      simp only [List.mem_cons, not_or]
      constructor
      · rintro ⟨hm, hD⟩
        exact ⟨hm, hq, hD⟩
      · rintro ⟨hm, _, hD⟩
        exact ⟨hm, hD⟩

theorem nodup_foldl_remove :
    ∀ (D : List String) (sel : List FileItem), (selPaths sel).Nodup →
      (selPaths (D.foldl removeFirstByPath sel)).Nodup := by
  intro D
  induction D with
  | nil => intro sel hnd; exact hnd
  | cons p D' ih =>
    intro sel hnd
    rw [List.foldl_cons]
    exact ih _ (nodup_removeFirstByPath p hnd)

theorem mem_selPaths_addSelected (root : String) (sel : List FileItem) (fp q : String) :
    (q ∈ selPaths (addSelected root sel fp) ↔ q ∈ selPaths sel ∨ q = fp) := by
  simp only [addSelected]
  by_cases h : (sel.any (fun f => f.filePath == fp)) = true
  · rw [if_pos h]
    have hfp := (any_filePath_iff sel fp).mp h
    constructor
    · intro hm; exact Or.inl hm
    · rintro (hm | rfl)
      · exact hm
      · exact hfp
  · rw [if_neg h]
    simp [selPaths, dirItemDescriptor]

theorem nodup_addSelected (root : String) {sel : List FileItem} (fp : String)
    (hnd : (selPaths sel).Nodup) : (selPaths (addSelected root sel fp)).Nodup := by
  simp only [addSelected]
  by_cases h : (sel.any (fun f => f.filePath == fp)) = true
  · rw [if_pos h]; exact hnd
  · rw [if_neg h]
    have hfp : fp ∉ selPaths sel := fun hm => h ((any_filePath_iff sel fp).mpr hm)
    simp only [selPaths, List.map_append, List.map_cons, List.map_nil, dirItemDescriptor]
    rw [List.nodup_append]
    refine ⟨hnd, List.nodup_singleton fp, ?_⟩
    intro a ha hb
    simp only [List.mem_singleton] at hb
    subst hb
    exact hfp ha

theorem mem_selPaths_foldl_add (root : String) :
    ∀ (D : List String) (sel : List FileItem) (q : String),
      (q ∈ selPaths (D.foldl (addSelected root) sel) ↔ q ∈ selPaths sel ∨ q ∈ D) := by
  intro D
  induction D with
  | nil => intro sel q; simp
  | cons p D' ih =>
    intro sel q
    rw [List.foldl_cons, ih (addSelected root sel p) q, mem_selPaths_addSelected]
    simp only [List.mem_cons]
    tauto

theorem nodup_foldl_add (root : String) :
    ∀ (D : List String) (sel : List FileItem), (selPaths sel).Nodup →
      (selPaths (D.foldl (addSelected root) sel)).Nodup := by
  intro D
  induction D with
  | nil => intro sel hnd; exact hnd
  | cons p D' ih =>
    intro sel hnd
    rw [List.foldl_cons]
    exact ih _ (nodup_addSelected root p hnd)

theorem isDirectoryFullySelected_iff (sel : List FileItem) (D : List String) :
    isDirectoryFullySelected sel D = true ↔ D ≠ [] ∧ ∀ p ∈ D, p ∈ selPaths sel := by
  simp only [isDirectoryFullySelected, Bool.and_eq_true, Bool.not_eq_true',
    List.all_eq_true]
  constructor
  · rintro ⟨h1, h2⟩
    refine ⟨?_, fun p hp => (any_filePath_iff sel p).mp (h2 p hp)⟩
    intro hD
    subst hD
    simp at h1
  · rintro ⟨h1, h2⟩
    refine ⟨?_, fun p hp => (any_filePath_iff sel p).mpr (h2 p hp)⟩
    cases D with
    | nil => exact absurd rfl h1
    | cons a l => rfl

theorem selPaths_toggleDirectory_full {sel : List FileItem} {D : List String} (root : String)
    (hfull : isDirectoryFullySelected sel D = true) (hnd : (selPaths sel).Nodup) (q : String) :
    (q ∈ selPaths (toggleDirectory sel D root) ↔ q ∈ selPaths sel ∧ q ∉ D) := by
  simp only [toggleDirectory, hfull, if_true]
  exact mem_selPaths_foldl_remove D sel hnd q

theorem selPaths_toggleDirectory_not_full {sel : List FileItem} {D : List String} (root : String)
    (hfull : isDirectoryFullySelected sel D = false) (q : String) :
    (q ∈ selPaths (toggleDirectory sel D root) ↔ q ∈ selPaths sel ∨ q ∈ D) := by
  simp only [toggleDirectory, hfull, Bool.false_eq_true, if_false]
  exact mem_selPaths_foldl_add root D sel q

theorem nodup_toggleDirectory {sel : List FileItem} (D : List String) (root : String)
    (hnd : (selPaths sel).Nodup) : (selPaths (toggleDirectory sel D root)).Nodup := by
  simp only [toggleDirectory]
  by_cases h : isDirectoryFullySelected sel D = true
  · rw [if_pos h]
    exact nodup_foldl_remove D sel hnd
  · rw [if_neg h]
    exact nodup_foldl_add root D sel hnd

/-- C4 (counterexample): on a partially selected folder the directory
toggle is not self-inverse: with only the file a selected out of the
folder's files a and b, the first toggle selects everything and the
second deselects everything, so the original membership of a is lost. -/
theorem toggle_twice_not_self_inverse :
    "/r/a" ∈ selPaths [(⟨"a", "a", "/r/a", "/r/a", false⟩ : FileItem)] ∧
    "/r/a" ∉ selPaths (toggleDirectory
      (toggleDirectory [(⟨"a", "a", "/r/a", "/r/a", false⟩ : FileItem)]
        ["/r/a", "/r/b"] "/r")
      ["/r/a", "/r/b"] "/r") := by decide

/-- C4 (amended): for a duplicate-free selection, the directory toggle
computes the aggregate state first, removes every snapshot file when the
folder is fully selected and otherwise adds every missing snapshot
file; applying it twice restores the original membership provided the
snapshot files were all selected or none were selected beforehand (a
partially selected folder instead ends fully deselected). -/
theorem toggle_twice_restores (sel : List FileItem) (D : List String) (root q p : String)
    (hnd : (selPaths sel).Nodup)
    (hcond : (∀ x ∈ D, x ∈ selPaths sel) ∨ (∀ x ∈ D, x ∉ selPaths sel)) :
    (q ∈ selPaths (toggleDirectory (toggleDirectory sel D root) D root) ↔ q ∈ selPaths sel) ∧
    (isDirectoryFullySelected sel D = true → p ∈ D →
      p ∉ selPaths (toggleDirectory sel D root)) ∧
    (isDirectoryFullySelected sel D = false → p ∈ D →
      p ∈ selPaths (toggleDirectory sel D root)) := by
  refine ⟨?_, ?_, ?_⟩
  · by_cases hfull : isDirectoryFullySelected sel D = true
    · obtain ⟨hne, hsub⟩ := (isDirectoryFullySelected_iff sel D).mp hfull
      obtain ⟨p₀, hp₀⟩ := List.exists_mem_of_ne_nil D hne
      have hfull2 : isDirectoryFullySelected (toggleDirectory sel D root) D = false := by
        cases hb : isDirectoryFullySelected (toggleDirectory sel D root) D with
        | false => rfl
        | true =>
          obtain ⟨_, hsub2⟩ := (isDirectoryFullySelected_iff _ D).mp hb
          have := (selPaths_toggleDirectory_full root hfull hnd p₀).mp (hsub2 p₀ hp₀)
          exact absurd hp₀ this.2
      rw [selPaths_toggleDirectory_not_full root hfull2 q,
        selPaths_toggleDirectory_full root hfull hnd q]
      constructor
      · rintro (⟨hm, _⟩ | hD)
        · exact hm
        · exact hsub q hD
      · intro hm
        by_cases hD : q ∈ D
        · exact Or.inr hD
        · exact Or.inl ⟨hm, hD⟩
    · have hfullf : isDirectoryFullySelected sel D = false := by
        cases hb : isDirectoryFullySelected sel D with
        | false => rfl
        | true => exact absurd hb hfull
      rcases hcond with hall | hnone
      · have hD : D = [] := by
          by_contra hne
          exact hfull ((isDirectoryFullySelected_iff sel D).mpr ⟨hne, hall⟩)
        subst hD
        have hf0 : isDirectoryFullySelected sel ([] : List String) = false := rfl
        have h1 : toggleDirectory sel ([] : List String) root = sel := by
          simp [toggleDirectory, hf0]
        rw [h1, h1]
      · by_cases hD : D = []
        · subst hD
          have hf0 : isDirectoryFullySelected sel ([] : List String) = false := rfl
          have h1 : toggleDirectory sel ([] : List String) root = sel := by
            simp [toggleDirectory, hf0]
          rw [h1, h1]
        · have hfull2 : isDirectoryFullySelected (toggleDirectory sel D root) D = true := by
            apply (isDirectoryFullySelected_iff _ D).mpr
            refine ⟨hD, fun x hx => ?_⟩
            exact (selPaths_toggleDirectory_not_full root hfullf x).mpr (Or.inr hx)
          rw [selPaths_toggleDirectory_full root hfull2
            (nodup_toggleDirectory D root hnd) q,
            selPaths_toggleDirectory_not_full root hfullf q]
          constructor
          · rintro ⟨hm | hm, hnD⟩
            · exact hm
            · exact absurd hm hnD
          · intro hm
            exact ⟨Or.inl hm, fun hx => hnone q hx hm⟩
  · intro hfull hp
    rw [selPaths_toggleDirectory_full root hfull hnd p]
    rintro ⟨_, hnp⟩
    exact hnp hp
  · intro hfull hp
    exact (selPaths_toggleDirectory_not_full root hfull p).mpr (Or.inr hp)

/-- Witness for the amended C4 at a fully selected folder. -/
theorem toggle_twice_restores_witness :
    (selPaths [(⟨"a", "a", "/r/a", "/r/a", false⟩ : FileItem)]).Nodup ∧
    ((∀ x ∈ ["/r/a"], x ∈ selPaths [(⟨"a", "a", "/r/a", "/r/a", false⟩ : FileItem)]) ∨
      (∀ x ∈ ["/r/a"], x ∉ selPaths [(⟨"a", "a", "/r/a", "/r/a", false⟩ : FileItem)])) ∧
    (("/r/a" ∈ selPaths (toggleDirectory
        (toggleDirectory [(⟨"a", "a", "/r/a", "/r/a", false⟩ : FileItem)] ["/r/a"] "/r")
        ["/r/a"] "/r") ↔
      "/r/a" ∈ selPaths [(⟨"a", "a", "/r/a", "/r/a", false⟩ : FileItem)]) ∧
    (isDirectoryFullySelected [(⟨"a", "a", "/r/a", "/r/a", false⟩ : FileItem)] ["/r/a"] = true →
      "/r/a" ∈ (["/r/a"] : List String) →
      "/r/a" ∉ selPaths (toggleDirectory [(⟨"a", "a", "/r/a", "/r/a", false⟩ : FileItem)]
        ["/r/a"] "/r")) ∧
    (isDirectoryFullySelected [(⟨"a", "a", "/r/a", "/r/a", false⟩ : FileItem)] ["/r/a"] = false →
      "/r/a" ∈ (["/r/a"] : List String) →
      "/r/a" ∈ selPaths (toggleDirectory [(⟨"a", "a", "/r/a", "/r/a", false⟩ : FileItem)]
        ["/r/a"] "/r"))) :=
  ⟨by decide, by decide,
   toggle_twice_restores [(⟨"a", "a", "/r/a", "/r/a", false⟩ : FileItem)] ["/r/a"] "/r"
     "/r/a" "/r/a" (by decide) (by decide)⟩

theorem nodup_toggleFile {sel : List FileItem} (it : FileItem)
    (hnd : (selPaths sel).Nodup) : (selPaths (toggleFile sel it)).Nodup := by
  simp only [toggleFile]
  by_cases h : (sel.any (fun f => f.filePath == it.filePath)) = true
  · rw [if_pos h]
    exact nodup_removeFirstByPath it.filePath hnd
  · rw [if_neg h]
    have hfp : it.filePath ∉ selPaths sel := fun hm =>
      h ((any_filePath_iff sel it.filePath).mpr hm)
    simp only [selPaths, List.map_append, List.map_cons, List.map_nil]
    rw [List.nodup_append]
    refine ⟨hnd, List.nodup_singleton _, ?_⟩
    intro a ha hb
    simp only [List.mem_singleton] at hb
    subst hb
    exact hfp ha

theorem navigate_preserves_nodup (root : String) (opts : BackupOptions)
    (pats : List RohitIgnorePattern) :
    ∀ (evs : List NavEvent) (sel : List FileItem) (cur : String) (r : List FileItem),
      (selPaths sel).Nodup → navigate root opts pats evs sel cur = some r →
      (selPaths r).Nodup := by
  intro evs
  induction evs with
  | nil =>
    intro sel cur r _ h
    simp [navigate] at h
  | cons e rest ih =>
    intro sel cur r hnd h
    cases e with
    | cancel =>
      simp only [navigate, Option.some.injEq] at h
      subst h
      simp [selPaths]
    | done =>
      simp only [navigate, Option.some.injEq] at h
      subst h
      exact hnd
    | parent => exact ih _ _ _ hnd h
    | dir contents dirPath sub =>
      cases sub with
      | cancel => exact ih _ _ _ hnd h
      | enter => exact ih _ _ _ hnd h
      | toggle => exact ih _ _ _ (nodup_toggleDirectory _ root hnd) h
    | file item => exact ih _ _ _ (nodup_toggleFile item hnd) h

/-- C9: starting from the empty selection, every navigator action keeps
the selection free of duplicate file paths: a file toggle adds the
picked item only when no entry with its path is present and otherwise
splices out the matching entry, folder toggles preserve the no-duplicate
invariant, and any navigation run from the empty selection that finishes
returns a selection with pairwise distinct paths. -/
theorem selection_keys_unique (sel : List FileItem) (it : FileItem) (D : List String)
    (root : String) (opts : BackupOptions) (pats : List RohitIgnorePattern)
    (evs : List NavEvent) (r : List FileItem)
    (hnd : (selPaths sel).Nodup)
    (hr : navigate root opts pats evs [] root = some r) :
    (it.filePath ∈ selPaths sel →
      toggleFile sel it = removeFirstByPath sel it.filePath) ∧
    (it.filePath ∉ selPaths sel → toggleFile sel it = sel ++ [it]) ∧
    (selPaths (toggleFile sel it)).Nodup ∧
    (selPaths (toggleDirectory sel D root)).Nodup ∧
    (selPaths r).Nodup := by
  refine ⟨?_, ?_, nodup_toggleFile it hnd, nodup_toggleDirectory D root hnd,
    navigate_preserves_nodup root opts pats evs [] root r (by simp [selPaths]) hr⟩
  · intro hm
    have h := (any_filePath_iff sel it.filePath).mpr hm
    simp [toggleFile, h]
  · intro hm
    have h : sel.any (fun f => f.filePath == it.filePath) = false := by
      cases hb : sel.any (fun f => f.filePath == it.filePath) with
      | false => rfl
      | true => exact absurd ((any_filePath_iff sel it.filePath).mp hb) hm
    simp [toggleFile, h]

/-- Witness for C9 at a one-item selection and a finished navigation. -/
theorem selection_keys_unique_witness :
    (selPaths [(⟨"a", "a", "/r/a", "/r/a", false⟩ : FileItem)]).Nodup ∧
    ((("/r/b" : String) ∈ selPaths [(⟨"a", "a", "/r/a", "/r/a", false⟩ : FileItem)] →
      toggleFile [(⟨"a", "a", "/r/a", "/r/a", false⟩ : FileItem)]
        ⟨"b", "b", "/r/b", "/r/b", false⟩ =
        removeFirstByPath [(⟨"a", "a", "/r/a", "/r/a", false⟩ : FileItem)] "/r/b") ∧
    (("/r/b" : String) ∉ selPaths [(⟨"a", "a", "/r/a", "/r/a", false⟩ : FileItem)] →
      toggleFile [(⟨"a", "a", "/r/a", "/r/a", false⟩ : FileItem)]
        ⟨"b", "b", "/r/b", "/r/b", false⟩ =
        [(⟨"a", "a", "/r/a", "/r/a", false⟩ : FileItem)] ++
          [⟨"b", "b", "/r/b", "/r/b", false⟩]) ∧
    (selPaths (toggleFile [(⟨"a", "a", "/r/a", "/r/a", false⟩ : FileItem)]
      ⟨"b", "b", "/r/b", "/r/b", false⟩)).Nodup ∧
    (selPaths (toggleDirectory [(⟨"a", "a", "/r/a", "/r/a", false⟩ : FileItem)]
      ["/r/a", "/r/b"] "/r")).Nodup ∧
    (selPaths ([] : List FileItem)).Nodup) :=
  ⟨by decide,
   selection_keys_unique [(⟨"a", "a", "/r/a", "/r/a", false⟩ : FileItem)]
     ⟨"b", "b", "/r/b", "/r/b", false⟩ ["/r/a", "/r/b"] "/r" ⟨true, true, true⟩ []
     [NavEvent.done] [] (by decide) rfl⟩

/-- C8: cancelling the main picker at any point during navigation ends
the session with the empty selection, discarding all selections made so
far; with an empty selection the caller reports that no files were
selected instead of reaching the destination-folder prompt. -/
theorem cancel_yields_empty_selection (root cur : String) (opts : BackupOptions)
    (pats : List RohitIgnorePattern) (rest : List NavEvent) (sel : List FileItem) :
    navigate root opts pats (NavEvent.cancel :: rest) sel cur = some [] ∧
    backupAfterSelection [] = PostNavStep.noFilesSelected ∧
    backupAfterSelection [] ≠ PostNavStep.promptDestination :=
  ⟨rfl, rfl, by decide⟩
